import Mathlib

/-!
Verification of the two Nomad monitoring probes
(`cmd/check_nomad_long_running` and `cmd/check_nomad_unplaceable_jobs`).

The Nomad API client is modelled as a record of query results
(`LRClient`, `UPClient`); Go errors are strings, and the "job not found"
detection follows the source's substring match on the error text.
Go `int` fields are modelled as `Int`, `time.Time` values as `Int`
nanoseconds since the epoch (`time.Unix(0, ns)` is the identity in this
encoding and `Time.Before` is `<`).  Go pointers that may be nil are
modelled as `Option`.
-/

/-- Go `strings.Contains` helper: does `sub` occur at the head of `s`?
(`strings.HasPrefix`). -/
def prefixAt : List Char → List Char → Bool
  | _, [] => true
  | [], _ :: _ => false
  | a :: s, b :: sub => a == b && prefixAt s sub

/-- Does `sub` occur anywhere in `s`? -/
def containsSub (sub : List Char) : List Char → Bool
  | [] => prefixAt [] sub
  | c :: t => prefixAt (c :: t) sub || containsSub sub t

/-- Go `strings.Contains s sub`. -/
def goContains (s sub : String) : Bool :=
  containsSub sub.data s.data

/-- `api.Resources` (the fields this program reads). -/
structure Resources where
  CPU : Int
  MemoryMB : Int
  DiskMB : Int
  IOPS : Int
deriving DecidableEq, Repr

/-- The zero value of `api.Resources` (Go `api.Resources{}`). -/
def Resources.zero : Resources := ⟨0, 0, 0, 0⟩

/-- `type node struct` from `check_nomad_unplaceable_jobs/main.go`. -/
structure Node where
  ID : String
  resources : Resources
deriving DecidableEq, Repr

/-- `type failingJob struct` from `check_nomad_unplaceable_jobs/main.go`.
The Go field is a `*api.Resources` pointer; every record built by
`getEvaluations` carries a non-nil pointer, so the pointee is stored. -/
structure FailingJob where
  jobID : String
  dimension : String
  resources : Resources
deriving DecidableEq, Repr

/-- `findUnplaceableJobs` from `check_nomad_unplaceable_jobs/main.go`:
keep each failing job for which no node's available capacity meets the
job's CPU, memory and disk demand simultaneously (the inner loop breaks
on the first node that fits, which `List.any` mirrors). -/
def findUnplaceableJobs (nodes : List Node) (jobs : List FailingJob) : List FailingJob :=
  match jobs with
  | [] => []
  | j :: rest =>
    if nodes.any (fun n =>
        decide (n.resources.CPU ≥ j.resources.CPU ∧
          n.resources.MemoryMB ≥ j.resources.MemoryMB ∧
          n.resources.DiskMB ≥ j.resources.DiskMB)) then
      findUnplaceableJobs nodes rest
    else
      j :: findUnplaceableJobs nodes rest

lemma mem_findUnplaceableJobs (nodes : List Node) (jobs : List FailingJob) (j : FailingJob) :
    j ∈ findUnplaceableJobs nodes jobs ↔
      j ∈ jobs ∧ ∀ n ∈ nodes,
        ¬(n.resources.CPU ≥ j.resources.CPU ∧
          n.resources.MemoryMB ≥ j.resources.MemoryMB ∧
          n.resources.DiskMB ≥ j.resources.DiskMB) := by
  induction jobs with
  | nil => simp [findUnplaceableJobs]
  | cons hd rest ih =>
    simp only [findUnplaceableJobs]
    by_cases hany : nodes.any (fun n =>
        decide (n.resources.CPU ≥ hd.resources.CPU ∧
          n.resources.MemoryMB ≥ hd.resources.MemoryMB ∧
          n.resources.DiskMB ≥ hd.resources.DiskMB)) = true
    · rw [if_pos hany, ih]
      rw [List.any_eq_true] at hany
      obtain ⟨n, hn, hdom⟩ := hany
      rw [decide_eq_true_eq] at hdom
      constructor
      · rintro ⟨hmem, hno⟩
        exact ⟨List.mem_cons_of_mem _ hmem, hno⟩
      · rintro ⟨hmem, hno⟩
        rcases List.mem_cons.mp hmem with heq | hmem
        · exact absurd hdom (heq ▸ hno n hn)
        · exact ⟨hmem, hno⟩
    · rw [if_neg hany, List.mem_cons, ih]
      have hno : ∀ n ∈ nodes,
          ¬(n.resources.CPU ≥ hd.resources.CPU ∧
            n.resources.MemoryMB ≥ hd.resources.MemoryMB ∧
            n.resources.DiskMB ≥ hd.resources.DiskMB) := by
        intro n hn hdom
        exact hany (List.any_eq_true.mpr ⟨n, hn, decide_eq_true hdom⟩)
      constructor
      · rintro (heq | ⟨hmem, hrest⟩)
        · exact ⟨List.mem_cons.mpr (Or.inl heq), heq ▸ hno⟩
        · exact ⟨List.mem_cons_of_mem _ hmem, hrest⟩
      · rintro ⟨hmem, hrest⟩
        rcases List.mem_cons.mp hmem with heq | hmem
        · exact Or.inl heq
        · exact Or.inr ⟨hmem, hrest⟩

/-- C1: a failing job record is classified unplaceable by
`findUnplaceableJobs` iff no node's available capacity vector dominates
the job's demand vector in all three dimensions (inclusive component-wise
≥ on CPU, memory and disk); in particular a job whose demand exactly ties
some node's capacity on all three dimensions is placeable. -/
theorem findUnplaceableJobs_spec (nodes : List Node) (jobs : List FailingJob)
    (j : FailingJob) (hj : j ∈ jobs) :
    (j ∈ findUnplaceableJobs nodes jobs ↔
      ∀ n ∈ nodes,
        ¬(n.resources.CPU ≥ j.resources.CPU ∧
          n.resources.MemoryMB ≥ j.resources.MemoryMB ∧
          n.resources.DiskMB ≥ j.resources.DiskMB)) ∧
    (∀ n ∈ nodes,
      n.resources.CPU = j.resources.CPU →
      n.resources.MemoryMB = j.resources.MemoryMB →
      n.resources.DiskMB = j.resources.DiskMB →
      j ∉ findUnplaceableJobs nodes jobs) := by
  constructor
  · rw [mem_findUnplaceableJobs]
    exact ⟨fun h => h.2, fun h => ⟨hj, h⟩⟩
  · intro n hn hc hm hd hmem
    rw [mem_findUnplaceableJobs] at hmem
    exact hmem.2 n hn ⟨le_of_eq hc.symm, le_of_eq hm.symm, le_of_eq hd.symm⟩

/-- Concrete node used by the C1 witness. -/
def c1Node : Node := ⟨"n1", ⟨1000, 2048, 10000, 0⟩⟩

/-- Concrete failing job (exact capacity tie) used by the C1 witness. -/
def c1Job : FailingJob := ⟨"j1", "memory", ⟨1000, 2048, 10000, 0⟩⟩

theorem findUnplaceableJobs_spec_witness :
    c1Job ∈ [c1Job] ∧
    ((c1Job ∈ findUnplaceableJobs [c1Node] [c1Job] ↔
      ∀ n ∈ [c1Node],
        ¬(n.resources.CPU ≥ c1Job.resources.CPU ∧
          n.resources.MemoryMB ≥ c1Job.resources.MemoryMB ∧
          n.resources.DiskMB ≥ c1Job.resources.DiskMB)) ∧
    (∀ n ∈ [c1Node],
      n.resources.CPU = c1Job.resources.CPU →
      n.resources.MemoryMB = c1Job.resources.MemoryMB →
      n.resources.DiskMB = c1Job.resources.DiskMB →
      c1Job ∉ findUnplaceableJobs [c1Node] [c1Job])) :=
  ⟨by decide, findUnplaceableJobs_spec [c1Node] [c1Job] c1Job (by decide)⟩

/-- C10: with an empty node list, every failing job record is classified
unplaceable by `findUnplaceableJobs`, whatever its demand vector. -/
theorem findUnplaceableJobs_nil_nodes (jobs : List FailingJob) :
    findUnplaceableJobs [] jobs = jobs := by
  induction jobs with
  | nil => rfl
  | cons hd rest ih => simp [findUnplaceableJobs, ih]

/-- An entry of the jobs listing (`client.Jobs().List`): the fields this
program reads from `api.JobListStub`. -/
structure JobStub where
  ID : String
  Status : String
  SubmitTime : Int
deriving DecidableEq, Repr

/-- An entry of a job's allocations listing
(`client.Jobs().Allocations(id, true, nil)`): the fields read from
`api.AllocationListStub`. -/
structure Alloc where
  ID : String
  CreateTime : Int
  ClientStatus : String
deriving DecidableEq, Repr

/-- `type jobAlloc struct` from `check_nomad_long_running/main.go`. -/
structure JobAlloc where
  jobID : String
  jobDate : Int
  allocID : String
  allocDate : Int
  allocStatus : String
deriving DecidableEq, Repr

/-- The Nomad client as seen by the long-running probe: the result of the
jobs listing and, per job ID, the result of the allocations listing.
Errors are the Go error strings. -/
structure LRClient where
  jobsList : Except String (List JobStub)
  allocations : String → Except String (List Alloc)

/-- The `jobAlloc` record built inside `findLongRunningJobs` for job `j`
and allocation `alloc` (`time.Unix(0, ·)` is the identity here). -/
def mkJobAlloc (j : JobStub) (a : Alloc) : JobAlloc :=
  { jobID := j.ID
    jobDate := j.SubmitTime
    allocID := a.ID
    allocDate := a.CreateTime
    allocStatus := a.ClientStatus }

/-- The loop body of `findLongRunningJobs` over the jobs listing: skip
jobs whose status is not "running"; fetch the job's allocations, where a
"job not found" error skips the job and any other error aborts the scan;
collect a `jobAlloc` for every allocation created strictly before
`thresDate`, in listing order. -/
def lrScanJobs (client : LRClient) (thresDate : Int) :
    List JobStub → Except String (List JobAlloc)
  | [] => .ok []
  | j :: rest =>
    if j.Status ≠ "running" then lrScanJobs client thresDate rest
    else
      match client.allocations j.ID with
      | .error e =>
        if goContains e "job not found" then lrScanJobs client thresDate rest
        else .error e
      | .ok allocs =>
        match lrScanJobs client thresDate rest with
        | .error e => .error e
        | .ok tail =>
          .ok (((allocs.filter (fun a => a.CreateTime < thresDate)).map (mkJobAlloc j)) ++ tail)

/-- `findLongRunningJobs` from `check_nomad_long_running/main.go`. -/
def findLongRunningJobs (client : LRClient) (thresDate : Int) :
    Except String (List JobAlloc) :=
  match client.jobsList with
  | .error e => .error e
  | .ok jobs => lrScanJobs client thresDate jobs

/-- The records a single job listing entry contributes to a successful
scan: nothing unless its status is "running" and its allocations listing
succeeded, else one record per allocation created before the cutoff, in
listing order. -/
def lrJobMatches (client : LRClient) (thresDate : Int) (j : JobStub) : List JobAlloc :=
  if j.Status ≠ "running" then []
  else
    match client.allocations j.ID with
    | .error _ => []
    | .ok allocs => (allocs.filter (fun a => a.CreateTime < thresDate)).map (mkJobAlloc j)

lemma lrScanJobs_ok (client : LRClient) (thresDate : Int) (jobs : List JobStub)
    (out : List JobAlloc) (h : lrScanJobs client thresDate jobs = .ok out) :
    out = jobs.flatMap (lrJobMatches client thresDate) := by
  induction jobs generalizing out with
  | nil =>
    simp only [lrScanJobs] at h
    cases h
    simp
  | cons j rest ih =>
    simp only [lrScanJobs] at h
    by_cases hst : j.Status ≠ "running"
    · rw [if_pos hst] at h
      simp [List.flatMap_cons, lrJobMatches, if_pos hst, ih out h]
    · rw [if_neg hst] at h
      cases halloc : client.allocations j.ID with
      | error e =>
        rw [halloc] at h
        dsimp only at h
        by_cases hnf : goContains e "job not found" = true
        · rw [if_pos hnf] at h
          simp [List.flatMap_cons, lrJobMatches, if_neg hst, halloc, ih out h]
        · rw [if_neg hnf] at h
          cases h
      | ok allocs =>
        rw [halloc] at h
        dsimp only at h
        cases htail : lrScanJobs client thresDate rest with
        | error e => rw [htail] at h; cases h
        | ok tail =>
          rw [htail] at h
          cases h
          simp [List.flatMap_cons, lrJobMatches, if_neg hst, halloc, ih tail htail]

/-- C9: a successful long-running scan reports matching allocations in
the orchestrator's listing order — jobs in jobs-listing order and, within
each job, allocations in that job's allocations-listing order (filtering
preserves order; no re-sort). -/
theorem findLongRunningJobs_order (client : LRClient) (thresDate : Int)
    (jobs : List JobStub) (out : List JobAlloc)
    (hjobs : client.jobsList = .ok jobs)
    (hout : findLongRunningJobs client thresDate = .ok out) :
    out = jobs.flatMap (lrJobMatches client thresDate) := by
  unfold findLongRunningJobs at hout
  rw [hjobs] at hout
  exact lrScanJobs_ok client thresDate jobs out hout

/-- Concrete job listing entry for the long-running witnesses. -/
def lrWitJob : JobStub := ⟨"job1", "running", 5⟩

/-- Concrete allocation for the long-running witnesses. -/
def lrWitAlloc : Alloc := ⟨"alloc1", 10, "complete"⟩

/-- Concrete client for the long-running witnesses: one running job with
one allocation created at t = 10. -/
def lrWitClient : LRClient := ⟨.ok [lrWitJob], fun _ => .ok [lrWitAlloc]⟩

theorem findLongRunningJobs_order_witness :
    lrWitClient.jobsList = .ok [lrWitJob] ∧
    findLongRunningJobs lrWitClient 100 = .ok [mkJobAlloc lrWitJob lrWitAlloc] ∧
    [mkJobAlloc lrWitJob lrWitAlloc] = [lrWitJob].flatMap (lrJobMatches lrWitClient 100) :=
  ⟨rfl, rfl, findLongRunningJobs_order lrWitClient 100 [lrWitJob]
    [mkJobAlloc lrWitJob lrWitAlloc] rfl rfl⟩

lemma mkJobAlloc_inj (j : JobStub) : Function.Injective (mkJobAlloc j) := by
  intro a b h
  cases a with | mk aID aCT aCS =>
  cases b with | mk bID bCT bCS =>
  simp only [mkJobAlloc, JobAlloc.mk.injEq, true_and] at h
  obtain ⟨h1, h2, h3⟩ := h
  rw [h1, h2, h3]

lemma jobID_of_mem_lrJobMatches (client : LRClient) (t : Int) (j : JobStub)
    (x : JobAlloc) (hx : x ∈ lrJobMatches client t j) : x.jobID = j.ID := by
  unfold lrJobMatches at hx
  by_cases hst : j.Status ≠ "running"
  · rw [if_pos hst] at hx
    cases hx
  · rw [if_neg hst] at hx
    cases hal : client.allocations j.ID with
    | error e =>
      rw [hal] at hx
      cases hx
    | ok allocs =>
      rw [hal] at hx
      dsimp only at hx
      obtain ⟨b, _, hbx⟩ := List.mem_map.mp hx
      rw [← hbx]
      rfl

lemma count_lrJobMatches_ne (client : LRClient) (t : Int) (j' j : JobStub)
    (a : Alloc) (hne : j'.ID ≠ j.ID) :
    (lrJobMatches client t j').count (mkJobAlloc j a) = 0 := by
  rw [List.count_eq_zero]
  intro hmem
  exact hne (jobID_of_mem_lrJobMatches client t j' _ hmem).symm

lemma count_flatMap_lr_ne (client : LRClient) (t : Int) (js : List JobStub)
    (j : JobStub) (a : Alloc) (h : ∀ x ∈ js, x.ID ≠ j.ID) :
    (js.flatMap (lrJobMatches client t)).count (mkJobAlloc j a) = 0 := by
  induction js with
  | nil => rfl
  | cons j' rest ih =>
    rw [List.flatMap_cons, List.count_append,
      count_lrJobMatches_ne client t j' j a (h j' (List.mem_cons_self _ _)),
      ih (fun x hx => h x (List.mem_cons_of_mem _ hx))]

lemma count_lrJobMatches_self (client : LRClient) (t : Int) (j : JobStub)
    (allocs : List Alloc) (a : Alloc) (hal : client.allocations j.ID = .ok allocs)
    (hnda : allocs.Nodup) (ha : a ∈ allocs) :
    (lrJobMatches client t j).count (mkJobAlloc j a) =
      if j.Status = "running" ∧ a.CreateTime < t then 1 else 0 := by
  unfold lrJobMatches
  by_cases hst : j.Status = "running"
  · rw [if_neg (not_not_intro hst), hal]
    dsimp only
    rw [List.count_map_of_injective _ _ (mkJobAlloc_inj j)]
    by_cases hct : a.CreateTime < t
    · rw [List.count_filter (by simpa using hct), List.count_eq_one_of_mem hnda ha,
        if_pos ⟨hst, hct⟩]
    · rw [List.count_eq_zero.mpr (by simp [List.mem_filter, hct]),
        if_neg (fun hc => hct hc.2)]
  · rw [if_pos hst, if_neg (fun hc => hst hc.1)]
    rfl

lemma count_flatMap_lrJobMatches (client : LRClient) (t : Int) (js : List JobStub)
    (j : JobStub) (allocs : List Alloc) (a : Alloc)
    (hnd : (js.map JobStub.ID).Nodup) (hj : j ∈ js)
    (hal : client.allocations j.ID = .ok allocs)
    (hnda : allocs.Nodup) (ha : a ∈ allocs) :
    (js.flatMap (lrJobMatches client t)).count (mkJobAlloc j a) =
      if j.Status = "running" ∧ a.CreateTime < t then 1 else 0 := by
  induction js with
  | nil => cases hj
  | cons j' rest ih =>
    rw [List.map_cons, List.nodup_cons] at hnd
    rw [List.flatMap_cons, List.count_append]
    rcases List.mem_cons.mp hj with heq | hmem
    · subst heq
      rw [count_lrJobMatches_self client t j allocs a hal hnda ha]
      have hz : (rest.flatMap (lrJobMatches client t)).count (mkJobAlloc j a) = 0 := by
        refine count_flatMap_lr_ne client t rest j a (fun x hx hcon => ?_)
        exact hnd.1 (hcon ▸ List.mem_map_of_mem JobStub.ID hx)
      rw [hz, add_zero]
    · have hne : j'.ID ≠ j.ID := by
        intro hcon
        exact hnd.1 (hcon ▸ List.mem_map_of_mem JobStub.ID hmem)
      rw [count_lrJobMatches_ne client t j' j a hne,
        ih hnd.2 hmem, zero_add]

/-- C2: in a successful long-running scan with duplicate-free listings,
the record for allocation `a` of job `j` appears exactly once in the
result iff `j` has status "running" and `a` was created strictly before
the cutoff, and does not appear otherwise. -/
theorem findLongRunningJobs_count (client : LRClient) (t : Int)
    (jobs : List JobStub) (out : List JobAlloc) (j : JobStub)
    (allocs : List Alloc) (a : Alloc)
    (hjobs : client.jobsList = .ok jobs)
    (hout : findLongRunningJobs client t = .ok out)
    (hnd : (jobs.map JobStub.ID).Nodup)
    (hj : j ∈ jobs)
    (hal : client.allocations j.ID = .ok allocs)
    (hnda : allocs.Nodup)
    (ha : a ∈ allocs) :
    out.count (mkJobAlloc j a) =
      if j.Status = "running" ∧ a.CreateTime < t then 1 else 0 := by
  unfold findLongRunningJobs at hout
  rw [hjobs] at hout
  rw [lrScanJobs_ok client t jobs out hout]
  exact count_flatMap_lrJobMatches client t jobs j allocs a hnd hj hal hnda ha

theorem findLongRunningJobs_count_witness :
    lrWitClient.jobsList = .ok [lrWitJob] ∧
    findLongRunningJobs lrWitClient 100 = .ok [mkJobAlloc lrWitJob lrWitAlloc] ∧
    ([lrWitJob].map JobStub.ID).Nodup ∧
    lrWitJob ∈ [lrWitJob] ∧
    lrWitClient.allocations lrWitJob.ID = .ok [lrWitAlloc] ∧
    ([lrWitAlloc] : List Alloc).Nodup ∧
    lrWitAlloc ∈ [lrWitAlloc] ∧
    [mkJobAlloc lrWitJob lrWitAlloc].count (mkJobAlloc lrWitJob lrWitAlloc) =
      if lrWitJob.Status = "running" ∧ lrWitAlloc.CreateTime < 100 then 1 else 0 :=
  ⟨rfl, rfl, by decide, by decide, rfl, by decide, by decide,
    findLongRunningJobs_count lrWitClient 100 [lrWitJob]
      [mkJobAlloc lrWitJob lrWitAlloc] lrWitJob [lrWitAlloc] lrWitAlloc
      rfl rfl (by decide) (by decide) rfl (by decide) (by decide)⟩

/-- A task inside a task group: the field read is `t.Resources`
(a non-nil `*api.Resources` in every job detail the API returns). -/
structure NomadTask where
  Resources : Resources
deriving DecidableEq, Repr

/-- `api.EphemeralDisk` (the field this program reads). -/
structure EphemeralDisk where
  SizeMB : Int
deriving DecidableEq, Repr

/-- A task group of a job detail: ephemeral disk (nil-able pointer) and
tasks. -/
structure TaskGroup where
  EphemeralDisk : Option EphemeralDisk
  Tasks : List NomadTask
deriving DecidableEq, Repr

/-- A job detail record (`client.Jobs().Info`): the fields this program
reads. -/
structure JobDetail where
  Status : String
  TaskGroups : List TaskGroup
deriving DecidableEq, Repr

/-- One entry of an evaluation's `FailedTGAllocs` map: the keys of the
`DimensionExhausted` map, in iteration order. -/
structure AllocationMetric where
  DimensionExhausted : List String
deriving DecidableEq, Repr

/-- An evaluation listing entry (`client.Evaluations().List`): the job ID
and the values of the `FailedTGAllocs` map, in iteration order. -/
structure Eval where
  JobID : String
  FailedTGAllocs : List AllocationMetric
deriving DecidableEq, Repr

/-- A node listing entry (`client.Nodes().List`). -/
structure NodeStub where
  ID : String
deriving DecidableEq, Repr

/-- A node detail record (`client.Nodes().Info`): total and reserved
resources, the latter a nil-able pointer. -/
structure NodeDetail where
  Reserved : Option Resources
  Resources : Resources
deriving DecidableEq, Repr

/-- The Nomad client as seen by the unplaceable-jobs probe. -/
structure UPClient where
  evalsList : Except String (List Eval)
  jobInfo : String → Except String JobDetail
  nodesList : Except String (List NodeStub)
  nodeInfo : String → Except String NodeDetail

/-- The inner loop of `getResourcesForJob`: add every task's CPU, memory
and disk onto the running total. -/
def sumTaskResources (acc : Resources) : List NomadTask → Resources
  | [] => acc
  | t :: ts =>
    sumTaskResources
      { acc with
        CPU := acc.CPU + t.Resources.CPU
        MemoryMB := acc.MemoryMB + t.Resources.MemoryMB
        DiskMB := acc.DiskMB + t.Resources.DiskMB } ts

/-- The outer loop of `getResourcesForJob`: per task group, add the
ephemeral disk size (when present) onto the disk total, then the tasks'
resources. -/
def sumJobResources (acc : Resources) : List TaskGroup → Resources
  | [] => acc
  | tg :: tgs =>
    sumJobResources
      (sumTaskResources
        (match tg.EphemeralDisk with
         | some ed => { acc with DiskMB := acc.DiskMB + ed.SizeMB }
         | none => acc)
        tg.Tasks) tgs

/-- The `total` computed by `getResourcesForJob` for a job detail,
starting from the Go zero value `api.Resources{}`. -/
def jobTotalResources (job : JobDetail) : Resources :=
  sumJobResources Resources.zero job.TaskGroups

/-- `getResourcesForJob` from `check_nomad_unplaceable_jobs/main.go`:
a "job not found" error yields status "deleted" with a nil resource
pointer; any other error is returned; otherwise the job's status and
summed resources. -/
def getResourcesForJob (client : UPClient) (jobID : String) :
    Except String (String × Option Resources) :=
  match client.jobInfo jobID with
  | .error e =>
    if goContains e "job not found" then .ok ("deleted", none) else .error e
  | .ok job => .ok (job.Status, some (jobTotalResources job))

/-- The task-group's ephemeral disk size, 0 when the pointer is nil. -/
def tgEphemeralDiskMB (tg : TaskGroup) : Int :=
  match tg.EphemeralDisk with
  | some ed => ed.SizeMB
  | none => 0

lemma sumTaskResources_spec (ts : List NomadTask) (acc : Resources) :
    sumTaskResources acc ts =
      ⟨acc.CPU + (ts.map (fun t => t.Resources.CPU)).sum,
       acc.MemoryMB + (ts.map (fun t => t.Resources.MemoryMB)).sum,
       acc.DiskMB + (ts.map (fun t => t.Resources.DiskMB)).sum,
       acc.IOPS⟩ := by
  induction ts generalizing acc with
  | nil =>
    cases acc
    simp [sumTaskResources]
  | cons t ts ih =>
    rw [sumTaskResources, ih]
    simp only [List.map_cons, List.sum_cons, Resources.mk.injEq]
    refine ⟨?_, ?_, ?_, trivial⟩ <;> dsimp only <;> omega

lemma sumJobResources_spec (tgs : List TaskGroup) (acc : Resources) :
    sumJobResources acc tgs =
      ⟨acc.CPU + (tgs.map (fun tg => (tg.Tasks.map (fun t => t.Resources.CPU)).sum)).sum,
       acc.MemoryMB + (tgs.map (fun tg => (tg.Tasks.map (fun t => t.Resources.MemoryMB)).sum)).sum,
       acc.DiskMB + (tgs.map (fun tg =>
         tgEphemeralDiskMB tg + (tg.Tasks.map (fun t => t.Resources.DiskMB)).sum)).sum,
       acc.IOPS⟩ := by
  induction tgs generalizing acc with
  | nil =>
    cases acc
    simp [sumJobResources]
  | cons tg tgs ih =>
    rw [sumJobResources, ih]
    have hstep :
        sumTaskResources
          (match tg.EphemeralDisk with
           | some ed => { acc with DiskMB := acc.DiskMB + ed.SizeMB }
           | none => acc)
          tg.Tasks =
        ⟨acc.CPU + (tg.Tasks.map (fun t => t.Resources.CPU)).sum,
         acc.MemoryMB + (tg.Tasks.map (fun t => t.Resources.MemoryMB)).sum,
         acc.DiskMB + tgEphemeralDiskMB tg + (tg.Tasks.map (fun t => t.Resources.DiskMB)).sum,
         acc.IOPS⟩ := by
      cases hed : tg.EphemeralDisk with
      | some ed => rw [sumTaskResources_spec]; simp [tgEphemeralDiskMB, hed]
      | none => rw [sumTaskResources_spec]; simp [tgEphemeralDiskMB, hed]
    rw [hstep]
    simp only [List.map_cons, List.sum_cons, Resources.mk.injEq]
    refine ⟨?_, ?_, ?_, trivial⟩ <;> dsimp only <;> omega

/-- C4: for a job detail fetched successfully, `getResourcesForJob`
returns the job's status together with a demand vector whose CPU, memory
and disk components are the sums of those components over every task in
every task group, with each task group's ephemeral-disk size additionally
added to the disk component only. -/
theorem getResourcesForJob_sums (client : UPClient) (jobID : String)
    (job : JobDetail) (h : client.jobInfo jobID = .ok job) :
    getResourcesForJob client jobID = .ok (job.Status, some (jobTotalResources job)) ∧
    (jobTotalResources job).CPU =
      (job.TaskGroups.map (fun tg => (tg.Tasks.map (fun t => t.Resources.CPU)).sum)).sum ∧
    (jobTotalResources job).MemoryMB =
      (job.TaskGroups.map (fun tg => (tg.Tasks.map (fun t => t.Resources.MemoryMB)).sum)).sum ∧
    (jobTotalResources job).DiskMB =
      (job.TaskGroups.map (fun tg =>
        tgEphemeralDiskMB tg + (tg.Tasks.map (fun t => t.Resources.DiskMB)).sum)).sum ∧
    (jobTotalResources job).IOPS = 0 := by
  refine ⟨by rw [getResourcesForJob, h], ?_, ?_, ?_, ?_⟩ <;>
    rw [jobTotalResources, sumJobResources_spec] <;> simp [Resources.zero]

/-- Concrete job detail used by the C4 witness: two task groups, one with
an ephemeral disk and two tasks, one with neither. -/
def c4Job : JobDetail :=
  ⟨"pending",
    [⟨some ⟨300⟩, [⟨⟨100, 256, 10, 0⟩⟩, ⟨⟨200, 512, 20, 0⟩⟩]⟩,
     ⟨none, [⟨⟨50, 128, 5, 0⟩⟩]⟩]⟩

/-- Concrete client used by the C4 witness. -/
def c4Client : UPClient :=
  ⟨.ok [], fun _ => .ok c4Job, .ok [], fun _ => .error "no node"⟩

theorem getResourcesForJob_sums_witness :
    c4Client.jobInfo "j1" = .ok c4Job ∧
    (getResourcesForJob c4Client "j1" = .ok (c4Job.Status, some (jobTotalResources c4Job)) ∧
    (jobTotalResources c4Job).CPU =
      (c4Job.TaskGroups.map (fun tg => (tg.Tasks.map (fun t => t.Resources.CPU)).sum)).sum ∧
    (jobTotalResources c4Job).MemoryMB =
      (c4Job.TaskGroups.map (fun tg => (tg.Tasks.map (fun t => t.Resources.MemoryMB)).sum)).sum ∧
    (jobTotalResources c4Job).DiskMB =
      (c4Job.TaskGroups.map (fun tg =>
        tgEphemeralDiskMB tg + (tg.Tasks.map (fun t => t.Resources.DiskMB)).sum)).sum ∧
    (jobTotalResources c4Job).IOPS = 0) :=
  ⟨rfl, getResourcesForJob_sums c4Client "j1" c4Job rfl⟩

/-- `getResourcesForNode` from `check_nomad_unplaceable_jobs/main.go`:
available capacity = total − reserved per dimension, a nil reserved
record standing for the zero value `api.Resources{}`; a query error is
wrapped as "querying node: …". -/
def getResourcesForNode (client : UPClient) (id : String) : Except String Resources :=
  match client.nodeInfo id with
  | .error e => .error ("querying node: " ++ e)
  | .ok nd =>
    let r := nd.Resources
    let res :=
      match nd.Reserved with
      | none => Resources.zero
      | some x => x
    .ok ⟨r.CPU - res.CPU, r.MemoryMB - res.MemoryMB, r.DiskMB - res.DiskMB, r.IOPS - res.IOPS⟩

/-- C5: for a node detail fetched successfully, `getResourcesForNode`
returns total minus reserved component-wise (CPU, memory, disk, iops),
a missing reserved record counting as the zero vector, so that with no
reserved record the available capacity equals the total capacity. -/
theorem getResourcesForNode_spec (client : UPClient) (id : String)
    (nd : NodeDetail) (h : client.nodeInfo id = .ok nd) :
    getResourcesForNode client id = .ok
      ⟨nd.Resources.CPU - (nd.Reserved.getD Resources.zero).CPU,
       nd.Resources.MemoryMB - (nd.Reserved.getD Resources.zero).MemoryMB,
       nd.Resources.DiskMB - (nd.Reserved.getD Resources.zero).DiskMB,
       nd.Resources.IOPS - (nd.Reserved.getD Resources.zero).IOPS⟩ ∧
    (nd.Reserved = none → getResourcesForNode client id = .ok nd.Resources) := by
  have key : getResourcesForNode client id = .ok
      ⟨nd.Resources.CPU - (nd.Reserved.getD Resources.zero).CPU,
       nd.Resources.MemoryMB - (nd.Reserved.getD Resources.zero).MemoryMB,
       nd.Resources.DiskMB - (nd.Reserved.getD Resources.zero).DiskMB,
       nd.Resources.IOPS - (nd.Reserved.getD Resources.zero).IOPS⟩ := by
    unfold getResourcesForNode
    rw [h]
    cases hres : nd.Reserved with
    | none => simp [hres]
    | some x => simp [hres]
  refine ⟨key, fun h0 => ?_⟩
  rw [key]
  simp only [h0, Option.getD_none, Resources.zero, Int.sub_zero]

/-- Concrete node detail (no reserved record) used by the C5 witness. -/
def c5Detail : NodeDetail := ⟨none, ⟨1000, 2048, 10000, 50⟩⟩

/-- Concrete client used by the C5 witness. -/
def c5Client : UPClient :=
  ⟨.ok [], fun _ => .error "no job", .ok [⟨"n1"⟩], fun _ => .ok c5Detail⟩

theorem getResourcesForNode_spec_witness :
    c5Client.nodeInfo "n1" = .ok c5Detail ∧
    (getResourcesForNode c5Client "n1" = .ok
      ⟨c5Detail.Resources.CPU - (c5Detail.Reserved.getD Resources.zero).CPU,
       c5Detail.Resources.MemoryMB - (c5Detail.Reserved.getD Resources.zero).MemoryMB,
       c5Detail.Resources.DiskMB - (c5Detail.Reserved.getD Resources.zero).DiskMB,
       c5Detail.Resources.IOPS - (c5Detail.Reserved.getD Resources.zero).IOPS⟩ ∧
    (c5Detail.Reserved = none → getResourcesForNode c5Client "n1" = .ok c5Detail.Resources)) :=
  ⟨rfl, getResourcesForNode_spec c5Client "n1" c5Detail rfl⟩

/-- The loop of `getNodes` over the node listing: fetch each node's
available resources, aborting on the first error. -/
def getNodesAux (client : UPClient) : List NodeStub → Except String (List Node)
  | [] => .ok []
  | s :: rest =>
    match getResourcesForNode client s.ID with
    | .error e => .error e
    | .ok r =>
      match getNodesAux client rest with
      | .error e => .error e
      | .ok tail => .ok (⟨s.ID, r⟩ :: tail)

/-- `getNodes` from `check_nomad_unplaceable_jobs/main.go`. -/
def getNodes (client : UPClient) : Except String (List Node) :=
  match client.nodesList with
  | .error e => .error e
  | .ok stubs => getNodesAux client stubs

/-- The loop of `getEvaluations` over the evaluations listing: skip
evaluations without failed task-group allocations; resolve the job's
status and resources (any error aborts); skip jobs that are not
"pending"; emit one record per exhausted dimension of each failed
task-group allocation, all carrying the job's summed resources.
A nil resource pointer together with status "pending" cannot occur
(`getResourcesForJob_none_status`), so that branch is dead code. -/
def getEvaluationsAux (client : UPClient) : List Eval → Except String (List FailingJob)
  | [] => .ok []
  | e :: rest =>
    if e.FailedTGAllocs.length = 0 then getEvaluationsAux client rest
    else
      match getResourcesForJob client e.JobID with
      | .error msg => .error msg
      | .ok (jobStatus, resources) =>
        if jobStatus ≠ "pending" then getEvaluationsAux client rest
        else
          match resources with
          | none => getEvaluationsAux client rest
          | some r =>
            match getEvaluationsAux client rest with
            | .error msg => .error msg
            | .ok tail =>
              .ok ((e.FailedTGAllocs.flatMap (fun v =>
                v.DimensionExhausted.map (fun dim => ⟨e.JobID, dim, r⟩))) ++ tail)

/-- `getEvaluations` from `check_nomad_unplaceable_jobs/main.go`. -/
def getEvaluations (client : UPClient) : Except String (List FailingJob) :=
  match client.evalsList with
  | .error e => .error e
  | .ok evals => getEvaluationsAux client evals

lemma getResourcesForJob_none_status (client : UPClient) (jobID : String)
    (s : String) (h : getResourcesForJob client jobID = .ok (s, none)) :
    s = "deleted" := by
  unfold getResourcesForJob at h
  cases hinfo : client.jobInfo jobID with
  | error e =>
    rw [hinfo] at h
    dsimp only at h
    by_cases hnf : goContains e "job not found" = true
    · rw [if_pos hnf] at h
      cases h
      rfl
    · rw [if_neg hnf] at h
      cases h
  | ok job =>
    rw [hinfo] at h
    cases h

/-- The failing-job records a single evaluation contributes to a
successful `getEvaluations` run. -/
def evalRecords (client : UPClient) (e : Eval) : List FailingJob :=
  if e.FailedTGAllocs.length = 0 then []
  else
    match getResourcesForJob client e.JobID with
    | .error _ => []
    | .ok (jobStatus, resources) =>
      if jobStatus ≠ "pending" then []
      else
        match resources with
        | none => []
        | some r =>
          e.FailedTGAllocs.flatMap (fun v =>
            v.DimensionExhausted.map (fun dim => ⟨e.JobID, dim, r⟩))

lemma getEvaluationsAux_ok (client : UPClient) (evals : List Eval)
    (out : List FailingJob) (h : getEvaluationsAux client evals = .ok out) :
    out = evals.flatMap (evalRecords client) := by
  induction evals generalizing out with
  | nil =>
    simp only [getEvaluationsAux] at h
    cases h
    simp
  | cons e rest ih =>
    simp only [getEvaluationsAux] at h
    by_cases hlen : e.FailedTGAllocs.length = 0
    · rw [if_pos hlen] at h
      have hnil : e.FailedTGAllocs = [] := List.length_eq_zero.mp hlen
      simp [List.flatMap_cons, evalRecords, hnil, ih out h]
    · rw [if_neg hlen] at h
      have hne : e.FailedTGAllocs ≠ [] := fun hnil => hlen (by simp [hnil])
      cases hres : getResourcesForJob client e.JobID with
      | error msg =>
        rw [hres] at h
        cases h
      | ok pair =>
        obtain ⟨jobStatus, resources⟩ := pair
        rw [hres] at h
        dsimp only at h
        by_cases hst : jobStatus ≠ "pending"
        · rw [if_pos hst] at h
          simp [List.flatMap_cons, evalRecords, hne, hres, hst, ih out h]
        · rw [if_neg hst] at h
          have hpend : jobStatus = "pending" := not_not.mp hst
          cases resources with
          | none => simp [List.flatMap_cons, evalRecords, hne, hres, hpend, ih out h]
          | some r =>
            cases htail : getEvaluationsAux client rest with
            | error msg => rw [htail] at h; cases h
            | ok tail =>
              rw [htail] at h
              cases h
              simp [List.flatMap_cons, evalRecords, hne, hres, hpend, ih tail htail]

/-- C3: a successful `getEvaluations` run returns, in listing order, one
failing-job record per exhausted-dimension entry of each failed
task-group allocation of each evaluation; records arise only from
evaluations with at least one failed task-group allocation whose job
re-fetches with status "pending", and every record of a job carries that
job's full demand vector, duplicated per exhausted-dimension row. -/
theorem getEvaluations_spec (client : UPClient) (evals : List Eval)
    (out : List FailingJob)
    (hev : client.evalsList = .ok evals)
    (hout : getEvaluations client = .ok out) :
    out = evals.flatMap (evalRecords client) ∧
    ∀ f ∈ out, ∃ e ∈ evals, e.FailedTGAllocs ≠ [] ∧
      ∃ r, getResourcesForJob client e.JobID = .ok ("pending", some r) ∧
        f.jobID = e.JobID ∧ f.resources = r ∧
        ∃ v ∈ e.FailedTGAllocs, f.dimension ∈ v.DimensionExhausted := by
  unfold getEvaluations at hout
  rw [hev] at hout
  have h1 := getEvaluationsAux_ok client evals out hout
  refine ⟨h1, ?_⟩
  intro f hf
  rw [h1] at hf
  obtain ⟨e, he, hfe⟩ := List.mem_flatMap.mp hf
  refine ⟨e, he, ?_⟩
  unfold evalRecords at hfe
  by_cases hlen : e.FailedTGAllocs.length = 0
  · rw [if_pos hlen] at hfe
    simp at hfe
  · rw [if_neg hlen] at hfe
    have hne : e.FailedTGAllocs ≠ [] := fun hnil => hlen (by simp [hnil])
    cases hres : getResourcesForJob client e.JobID with
    | error msg =>
      rw [hres] at hfe
      simp at hfe
    | ok pair =>
      obtain ⟨jobStatus, resources⟩ := pair
      rw [hres] at hfe
      dsimp only at hfe
      by_cases hst : jobStatus ≠ "pending"
      · rw [if_pos hst] at hfe
        simp at hfe
      · rw [if_neg hst] at hfe
        have hpend : jobStatus = "pending" := not_not.mp hst
        cases resources with
        | none => simp at hfe
        | some r =>
          obtain ⟨v, hv, hfv⟩ := List.mem_flatMap.mp hfe
          obtain ⟨dim, hdim, hfd⟩ := List.mem_map.mp hfv
          refine ⟨hne, r, by rw [hpend], ?_, ?_, v, hv, ?_⟩
          · rw [← hfd]
          · rw [← hfd]
          · rw [← hfd]
            exact hdim

/-- Concrete evaluation used by the C3 and C7 witnesses: one failed
task-group allocation, exhausted on "memory". -/
def c3Eval : Eval := ⟨"j1", [⟨["memory"]⟩]⟩

/-- Concrete client used by the C3 and C7 witnesses: one failing
evaluation whose job is pending, and no nodes. -/
def c3Client : UPClient :=
  ⟨.ok [c3Eval], fun _ => .ok c4Job, .ok [], fun _ => .error "no node"⟩

/-- The failing-job records `getEvaluations` produces on `c3Client`. -/
def c3Out : List FailingJob := [⟨"j1", "memory", jobTotalResources c4Job⟩]

theorem getEvaluations_spec_witness :
    c3Client.evalsList = .ok [c3Eval] ∧
    getEvaluations c3Client = .ok c3Out ∧
    (c3Out = [c3Eval].flatMap (evalRecords c3Client) ∧
    ∀ f ∈ c3Out, ∃ e ∈ [c3Eval], e.FailedTGAllocs ≠ [] ∧
      ∃ r, getResourcesForJob c3Client e.JobID = .ok ("pending", some r) ∧
        f.jobID = e.JobID ∧ f.resources = r ∧
        ∃ v ∈ e.FailedTGAllocs, f.dimension ∈ v.DimensionExhausted) :=
  ⟨rfl, rfl, getEvaluations_spec c3Client [c3Eval] c3Out rfl rfl⟩

/-- The tri-state monitoring status (`nagios.OK` / `WARNING` /
`CRITICAL` / `UNKNOWN`). -/
inductive NagiosCode where
  | ok
  | warning
  | critical
  | unknown
deriving DecidableEq, Repr

/-- The classification part of `main` in
`check_nomad_unplaceable_jobs/main.go`, after the client is built: fatal
query errors propagate; otherwise the status code and message reported
via `p.Exit`.  Nodes are only fetched when some failing job exists. -/
def unplaceableMain (client : UPClient) : Except String (NagiosCode × String) :=
  match getEvaluations client with
  | .error e => .error e
  | .ok failingJobs =>
    if failingJobs.length > 0 then
      match getNodes client with
      | .error e => .error e
      | .ok nodes =>
        let unplaceable := findUnplaceableJobs nodes failingJobs
        if unplaceable.length > 0 then
          .ok (.critical, "CRITICAL - " ++ toString unplaceable.length ++ " unplaceable jobs")
        else
          .ok (.ok, "OK - no unplaceable jobs")
    else
      .ok (.ok, "OK - no unplaceable jobs")

/-- The classification part of `main` in
`check_nomad_long_running/main.go`, after the client is built. -/
def longRunningMain (client : LRClient) (thresDate : Int) :
    Except String (NagiosCode × String) :=
  match findLongRunningJobs client thresDate with
  | .error e => .error e
  | .ok allocs =>
    if allocs.length > 0 then
      .ok (.warning, "WARNING - Found " ++ toString allocs.length ++ " long running jobs")
    else
      .ok (.ok, "OK - long running jobs")

/-- C7: a successful unplaceable-job scan reports OK when no record is
classified unplaceable and CRITICAL when one or more are, the
unplaceable-record count embedded in the CRITICAL message. -/
theorem unplaceableMain_status (client : UPClient) (fj : List FailingJob)
    (nodes : List Node) (code : NagiosCode) (msg : String)
    (hev : getEvaluations client = .ok fj)
    (hn : getNodes client = .ok nodes)
    (hrun : unplaceableMain client = .ok (code, msg)) :
    ((findUnplaceableJobs nodes fj).length = 0 → code = NagiosCode.ok) ∧
    ((findUnplaceableJobs nodes fj).length > 0 →
      code = NagiosCode.critical ∧
      msg = "CRITICAL - " ++ toString (findUnplaceableJobs nodes fj).length ++
        " unplaceable jobs") := by
  unfold unplaceableMain at hrun
  rw [hev] at hrun
  dsimp only at hrun
  by_cases hfj : fj.length > 0
  · rw [if_pos hfj, hn] at hrun
    dsimp only at hrun
    by_cases hu : (findUnplaceableJobs nodes fj).length > 0
    · rw [if_pos hu] at hrun
      cases hrun
      exact ⟨fun h0 => absurd h0 (Nat.pos_iff_ne_zero.mp hu), fun _ => ⟨rfl, rfl⟩⟩
    · rw [if_neg hu] at hrun
      cases hrun
      exact ⟨fun _ => rfl, fun hpos => absurd hpos hu⟩
  · rw [if_neg hfj] at hrun
    cases hrun
    have hnil : fj = [] := List.length_eq_zero.mp (Nat.eq_zero_of_not_pos hfj)
    subst hnil
    exact ⟨fun _ => rfl, fun hpos => absurd hpos (by simp [findUnplaceableJobs])⟩

theorem unplaceableMain_status_witness :
    getEvaluations c3Client = .ok c3Out ∧
    getNodes c3Client = .ok [] ∧
    unplaceableMain c3Client = .ok (NagiosCode.critical, "CRITICAL - 1 unplaceable jobs") ∧
    (((findUnplaceableJobs [] c3Out).length = 0 → NagiosCode.critical = NagiosCode.ok) ∧
    ((findUnplaceableJobs [] c3Out).length > 0 →
      NagiosCode.critical = NagiosCode.critical ∧
      "CRITICAL - 1 unplaceable jobs" =
        "CRITICAL - " ++ toString (findUnplaceableJobs [] c3Out).length ++
          " unplaceable jobs")) :=
  ⟨rfl, rfl, rfl,
    unplaceableMain_status c3Client c3Out [] NagiosCode.critical
      "CRITICAL - 1 unplaceable jobs" rfl rfl rfl⟩

/-- C8: a successful long-running scan reports OK when no allocation
matches and WARNING when one or more do, the matching-allocation count
embedded in the WARNING message. -/
theorem longRunningMain_status (client : LRClient) (t : Int)
    (allocs : List JobAlloc) (code : NagiosCode) (msg : String)
    (hscan : findLongRunningJobs client t = .ok allocs)
    (hrun : longRunningMain client t = .ok (code, msg)) :
    (allocs.length = 0 → code = NagiosCode.ok) ∧
    (allocs.length > 0 →
      code = NagiosCode.warning ∧
      msg = "WARNING - Found " ++ toString allocs.length ++ " long running jobs") := by
  unfold longRunningMain at hrun
  rw [hscan] at hrun
  dsimp only at hrun
  by_cases hl : allocs.length > 0
  · rw [if_pos hl] at hrun
    cases hrun
    exact ⟨fun h0 => absurd h0 (Nat.pos_iff_ne_zero.mp hl), fun _ => ⟨rfl, rfl⟩⟩
  · rw [if_neg hl] at hrun
    cases hrun
    exact ⟨fun _ => rfl, fun hpos => absurd hpos hl⟩

theorem longRunningMain_status_witness :
    findLongRunningJobs lrWitClient 100 = .ok [mkJobAlloc lrWitJob lrWitAlloc] ∧
    longRunningMain lrWitClient 100 =
      .ok (NagiosCode.warning, "WARNING - Found 1 long running jobs") ∧
    (([mkJobAlloc lrWitJob lrWitAlloc].length = 0 → NagiosCode.warning = NagiosCode.ok) ∧
    ([mkJobAlloc lrWitJob lrWitAlloc].length > 0 →
      NagiosCode.warning = NagiosCode.warning ∧
      "WARNING - Found 1 long running jobs" =
        "WARNING - Found " ++ toString [mkJobAlloc lrWitJob lrWitAlloc].length ++
          " long running jobs")) :=
  ⟨rfl, rfl,
    longRunningMain_status lrWitClient 100 [mkJobAlloc lrWitJob lrWitAlloc]
      NagiosCode.warning "WARNING - Found 1 long running jobs" rfl rfl⟩

/-- C6: a "job not found" error when re-fetching a job is non-fatal in
both probes — the long-running scan skips the job and continues, and
`getResourcesForJob` reports status "deleted" with a nil demand vector,
which the "pending" filter then excludes (`evalRecords` is empty) — while
any other query error aborts the scan and is returned. -/
theorem notFound_tolerated
    (clientL clientL2 : LRClient) (clientU clientU2 : UPClient)
    (t : Int) (j : JobStub) (rest : List JobStub)
    (jid : String) (ev : Eval) (e1 e2 : String)
    (h1 : goContains e1 "job not found" = true)
    (h2 : goContains e2 "job not found" = false)
    (hrun : j.Status = "running")
    (ha1 : clientL.allocations j.ID = .error e1)
    (ha2 : clientL2.allocations j.ID = .error e2)
    (hj1 : clientU.jobInfo jid = .error e1)
    (hj2 : clientU2.jobInfo jid = .error e2)
    (hevj : ev.JobID = jid) :
    lrScanJobs clientL t (j :: rest) = lrScanJobs clientL t rest ∧
    lrScanJobs clientL2 t (j :: rest) = .error e2 ∧
    getResourcesForJob clientU jid = .ok ("deleted", none) ∧
    evalRecords clientU ev = [] ∧
    getResourcesForJob clientU2 jid = .error e2 := by
  have hnr : ¬j.Status ≠ "running" := not_not_intro hrun
  have key3 : getResourcesForJob clientU jid = .ok ("deleted", none) := by
    unfold getResourcesForJob
    rw [hj1]
    dsimp only
    rw [if_pos h1]
  refine ⟨?_, ?_, key3, ?_, ?_⟩
  · simp only [lrScanJobs]
    rw [if_neg hnr, ha1]
    dsimp only
    rw [if_pos h1]
  · simp only [lrScanJobs]
    rw [if_neg hnr, ha2]
    dsimp only
    rw [if_neg (by simp [h2])]
  · unfold evalRecords
    by_cases hlen : ev.FailedTGAllocs.length = 0
    · rw [if_pos hlen]
    · rw [if_neg hlen, hevj, key3]
      dsimp only
      rw [if_pos (by decide)]
  · unfold getResourcesForJob
    rw [hj2]
    dsimp only
    rw [if_neg (by simp [h2])]

/-- Error message containing "job not found", used by the C6 witness. -/
def c6E1 : String := "Unexpected response code: 404 (job not found)"

/-- Error message not containing "job not found", used by the C6
witness. -/
def c6E2 : String := "connection refused"

/-- Long-running client whose allocation queries fail tolerably. -/
def c6LClient : LRClient := ⟨.ok [lrWitJob], fun _ => .error c6E1⟩

/-- Long-running client whose allocation queries fail fatally. -/
def c6LClient2 : LRClient := ⟨.ok [lrWitJob], fun _ => .error c6E2⟩

/-- Unplaceable-probe client whose job queries fail tolerably. -/
def c6UClient : UPClient :=
  ⟨.ok [c3Eval], fun _ => .error c6E1, .ok [], fun _ => .error c6E1⟩

/-- Unplaceable-probe client whose job queries fail fatally. -/
def c6UClient2 : UPClient :=
  ⟨.ok [c3Eval], fun _ => .error c6E2, .ok [], fun _ => .error c6E2⟩

theorem notFound_tolerated_witness :
    goContains c6E1 "job not found" = true ∧
    goContains c6E2 "job not found" = false ∧
    lrWitJob.Status = "running" ∧
    c6LClient.allocations lrWitJob.ID = .error c6E1 ∧
    c6LClient2.allocations lrWitJob.ID = .error c6E2 ∧
    c6UClient.jobInfo "j1" = .error c6E1 ∧
    c6UClient2.jobInfo "j1" = .error c6E2 ∧
    c3Eval.JobID = "j1" ∧
    (lrScanJobs c6LClient 0 (lrWitJob :: []) = lrScanJobs c6LClient 0 [] ∧
    lrScanJobs c6LClient2 0 (lrWitJob :: []) = .error c6E2 ∧
    getResourcesForJob c6UClient "j1" = .ok ("deleted", none) ∧
    evalRecords c6UClient c3Eval = [] ∧
    getResourcesForJob c6UClient2 "j1" = .error c6E2) :=
  ⟨by decide, by decide, rfl, rfl, rfl, rfl, rfl, rfl,
    notFound_tolerated c6LClient c6LClient2 c6UClient c6UClient2 0 lrWitJob []
      "j1" c3Eval c6E1 c6E2 (by decide) (by decide) rfl rfl rfl rfl rfl rfl⟩
